import Mathlib

/-!
Shallow embedding of the corpus/scheduling core (`src/corpus/mod.rs`) of the
LibAFL fork under verification: `Testcase`, the `RandomCorpus` storage with
identity-based removal and random selection, and the cyclic `QueueCorpus`
scheduler built on top of it.

Conventions of the embedding:
* Object identity (the raw-pointer comparison `x.as_ref() as *const _ ==
  entry as *const _` in `RandomCorpus::remove`) is modelled by a numeric
  `id` field on `Testcase`: two testcases are the same object exactly when
  their `id`s coincide.  Distinct boxed entries of a corpus always have
  distinct addresses, which corresponds to the `id`s of the entries being
  pairwise distinct.
* Fallible Rust code is modelled with `Option`/`Except`: an outer `none`
  models a Rust panic (`unwrap` of `None`, or an out-of-bounds
  `Vec::remove`), while `Except.error` models an `Err(..)` return value.
* The `Rand` capability (`utils::Rand`, not part of the shown source) is
  modelled from the spec as an abstract stream of draws.
-/

namespace Corpus

/-- Modelled from the spec: the randomness capability of `utils::Rand` is not
part of the shown source; it is an abstract stream of pre-drawn numbers
together with a cursor, consumed one draw per selection call. -/
structure Rand where
  seq : Nat → Nat
  idx : Nat

/-- Modelled from the spec: `below(bound)` returns a value in `[0, bound)`
(uniformity is irrelevant to the claims); the next draw of the stream is
reduced modulo the bound and the cursor advances. -/
def Rand.below (r : Rand) (bound : Nat) : Nat × Rand :=
  (r.seq r.idx % bound, { r with idx := r.idx + 1 })

/-- One stored fuzz input.  The `id` field models object identity (the
address used by the raw-pointer comparison in `RandomCorpus::remove`);
`filename` and `is_on_disk` are the data fields of `SimpleTestcase`.  The
metadata map is never consulted by any corpus operation and is omitted. -/
structure Testcase where
  id : Nat
  filename : String
  is_on_disk : Bool
deriving DecidableEq, Repr

/-- `SimpleTestcase::new(filename)`: fresh testcase, not on disk.  The `id`
models the address of the box allocated by the caller (`Box::new`). -/
def SimpleTestcase.new (id : Nat) (filename : String) : Testcase :=
  { id := id, filename := filename, is_on_disk := false }

/-- The error enumeration: the reference code only ever returns
`Error::Unknown`. -/
inductive Error where
  | Unknown
deriving DecidableEq, Repr

/-- `RandomCorpus`: the randomness capability, the flat backing vector of
owned testcases, and the (unused) directory path. -/
structure RandomCorpus where
  rand : Rand
  entries : List Testcase
  dir_path : String

/-- `RandomCorpus::new(rand, dir_path)`. -/
def RandomCorpus.new (rand : Rand) (dir_path : String) : RandomCorpus :=
  { dir_path := dir_path, entries := [], rand := rand }

/-- `RandomCorpus::count`: length of the backing vector. -/
def RandomCorpus.count (c : RandomCorpus) : Nat :=
  c.entries.length

/-- `RandomCorpus::add`: push the entry at the end of the backing vector. -/
def RandomCorpus.add (c : RandomCorpus) (entry : Testcase) : RandomCorpus :=
  { c with entries := c.entries ++ [entry] }

/-- The scan loop of `RandomCorpus::remove` (lines 52-60): `i` starts at 0
and, for each element in order, is incremented BEFORE the identity
comparison; on the first identity match the loop breaks with the current
value of `i` (one past the match position).  Returns `none` when no entry
matches (`found` stays false). -/
def removeScan (entry : Testcase) : List Testcase → Nat → Option Nat
  | [], _ => none
  | x :: xs, i =>
    if x.id = entry.id then some (i + 1) else removeScan entry xs (i + 1)

/-- Rust `Vec::remove(i)`: panics (`none`) when `i` is out of bounds,
otherwise returns the removed element and the remaining vector. -/
def vecRemove {α : Type} (xs : List α) (i : Nat) : Option (α × List α) :=
  match xs.get? i with
  | none => none
  | some a => some (a, xs.eraseIdx i)

/-- `RandomCorpus::remove`: run the scan loop; if no match, return
`Some (none, unchanged corpus)` (the Rust `None` with the collection left
alone); if the scan breaks with index `i`, call `Vec::remove(i)`.  The
outer `none` models the panic of an out-of-bounds `Vec::remove`. -/
def RandomCorpus.remove (c : RandomCorpus) (entry : Testcase) :
    Option (Option Testcase × RandomCorpus) :=
  match removeScan entry c.entries 0 with
  | none => some (none, c)
  | some i =>
    match vecRemove c.entries i with
    | none => none
    | some (t, rest) => some (some t, { c with entries := rest })

/-- `RandomCorpus::random_entry`: draw `id := rand.below(entries.len())`,
then `entries.get_mut(id).unwrap()`.  The `unwrap` of a failed lookup is a
panic (outer `none`); on success the code always returns `Ok(..)` — there
is no `Err` branch in the source. -/
def RandomCorpus.random_entry (c : RandomCorpus) :
    Option (Except Error (Testcase × RandomCorpus)) :=
  match c.entries.get? (c.rand.below c.entries.length).1 with
  | none => none
  | some t =>
    some (Except.ok (t, { c with rand := (c.rand.below c.entries.length).2 }))

/-- `RandomCorpus::get`: alias for `random_entry`. -/
def RandomCorpus.get (c : RandomCorpus) :
    Option (Except Error (Testcase × RandomCorpus)) :=
  c.random_entry

/-- `QueueCorpus`: a `RandomCorpus` for storage plus the cursor `pos` and
the completed-cycle counter `cycles`. -/
structure QueueCorpus where
  random_corpus : RandomCorpus
  pos : Nat
  cycles : Nat

/-- `QueueCorpus::new(rand, dir_path)`: fresh queue over a fresh
`RandomCorpus`, with `cycles = 0` and `pos = 0`. -/
def QueueCorpus.new (rand : Rand) (dir_path : String) : QueueCorpus :=
  { random_corpus := RandomCorpus.new rand dir_path, pos := 0, cycles := 0 }

/-- `QueueCorpus::count`: delegates to the underlying `RandomCorpus`. -/
def QueueCorpus.count (q : QueueCorpus) : Nat :=
  q.random_corpus.count

/-- `QueueCorpus::add`: delegates to the underlying `RandomCorpus`. -/
def QueueCorpus.add (q : QueueCorpus) (entry : Testcase) : QueueCorpus :=
  { q with random_corpus := q.random_corpus.add entry }

/-- `QueueCorpus::remove`: delegates to the underlying `RandomCorpus`
(no adjustment of `pos` or `cycles`). -/
def QueueCorpus.remove (q : QueueCorpus) (entry : Testcase) :
    Option (Option Testcase × QueueCorpus) :=
  match q.random_corpus.remove entry with
  | none => none
  | some (r, c) => some (r, { q with random_corpus := c })

/-- `QueueCorpus::random_entry`: delegates to the underlying
`RandomCorpus`. -/
def QueueCorpus.random_entry (q : QueueCorpus) :
    Option (Except Error (Testcase × QueueCorpus)) :=
  match q.random_corpus.random_entry with
  | none => none
  | some (Except.error e) => some (Except.error e)
  | some (Except.ok (t, c)) => some (Except.ok (t, { q with random_corpus := c }))

/-- `QueueCorpus::get` (lines 118-128): on an empty corpus return
`Err(Error::Unknown)`; otherwise advance the cursor by one, wrap it to 0
(incrementing `cycles`) when it reaches `count()`, and return the entry at
the new cursor via `entries.get_mut(pos).unwrap()` (the `unwrap` of a
failed lookup would be a panic, the outer `none`). -/
def QueueCorpus.get (q : QueueCorpus) :
    Option (Except Error (Testcase × QueueCorpus)) :=
  if q.count = 0 then
    some (Except.error Error.Unknown)
  else
    match q.random_corpus.entries.get?
        (if q.count ≤ q.pos + 1 then 0 else q.pos + 1) with
    | none => none
    | some t =>
      some (Except.ok (t,
        { q with pos := if q.count ≤ q.pos + 1 then 0 else q.pos + 1,
                 cycles := if q.count ≤ q.pos + 1 then q.cycles + 1 else q.cycles }))

/-- `QueueCorpus::get_cycles`. -/
def QueueCorpus.get_cycles (q : QueueCorpus) : Nat :=
  q.cycles

/-- `QueueCorpus::get_pos`. -/
def QueueCorpus.get_pos (q : QueueCorpus) : Nat :=
  q.pos

/-! Derived state-observation helpers used to state the claims. -/

/-- Filenames returned by the first `n` successful `get()` calls on a
`QueueCorpus`, threading the state; stops early on error or panic. -/
def getFilenames : Nat → QueueCorpus → List String
  | 0, _ => []
  | n + 1, q =>
    match q.get with
    | some (Except.ok (t, q2)) => t.filename :: getFilenames n q2
    | _ => []

/-- Value of `get_cycles()` after `n` successful `get()` calls (`none` if a
call errors or panics before that). -/
def cyclesAfter : Nat → QueueCorpus → Option Nat
  | 0, q => some q.get_cycles
  | n + 1, q =>
    match q.get with
    | some (Except.ok (_, q2)) => cyclesAfter n q2
    | _ => none

/-- State reached by one `get()` call: the updated corpus on success, the
unchanged corpus when the call returns an error (the Rust caller keeps the
same object).  The panic branch cannot occur (proved below); it is mapped
to the unchanged state. -/
def stepGet (q : QueueCorpus) : QueueCorpus :=
  match q.get with
  | some (Except.ok (_, q2)) => q2
  | _ => q

/-- A `get()` call wraps exactly when the corpus is non-empty and the
advanced cursor reaches `count()`, sending the cursor back to position 0. -/
def wraps (q : QueueCorpus) : Bool :=
  decide (q.count ≠ 0 ∧ q.count ≤ q.pos + 1)

/-- Operations of the `Corpus` interface, for reachability statements. -/
inductive QOp where
  | add (t : Testcase)
  | get
  | random_entry
  | remove (t : Testcase)
deriving DecidableEq

/-- Whether an operation is a removal. -/
def QOp.isRemove : QOp → Bool
  | .remove _ => true
  | _ => false

/-- State transformer of one `Corpus` operation on a `QueueCorpus` (the
state after the call; calls whose result is an error or a panic leave the
state as the code left it, i.e. unchanged for these operations). -/
def applyOp (q : QueueCorpus) : QOp → QueueCorpus
  | .add t => q.add t
  | .get => stepGet q
  | .random_entry =>
    match q.random_entry with
    | some (Except.ok (_, q2)) => q2
    | _ => q
  | .remove t =>
    match q.remove t with
    | some (_, q2) => q2
    | none => q

/-- State after a sequence of `Corpus` operations. -/
def applyOps (q : QueueCorpus) : List QOp → QueueCorpus
  | [] => q
  | op :: ops => applyOps (applyOp q op) ops

/-! Concrete values used by the evaluation theorems. -/

/-- A concrete randomness stream (all draws read 0). -/
def rand0 : Rand :=
  { seq := fun _ => 0, idx := 0 }

/-- A fresh, empty `RandomCorpus`. -/
def emptyRandomCorpus : RandomCorpus :=
  RandomCorpus.new rand0 "fancy/path"

/-- A fresh, empty `QueueCorpus`. -/
def emptyQueueCorpus : QueueCorpus :=
  QueueCorpus.new rand0 "fancy/path"

/-- Testcase "a" (identity 0). -/
def tcA : Testcase := SimpleTestcase.new 0 "a"

/-- Testcase "b" (identity 1). -/
def tcB : Testcase := SimpleTestcase.new 1 "b"

/-- Testcase "c" (identity 2). -/
def tcC : Testcase := SimpleTestcase.new 2 "c"

/-- A `RandomCorpus` holding `tcA` then `tcB`. -/
def corpusAB : RandomCorpus :=
  (emptyRandomCorpus.add tcA).add tcB

/-- A `RandomCorpus` holding only `tcA`. -/
def corpusA : RandomCorpus :=
  emptyRandomCorpus.add tcA

/-- A testcase (identity 99) never added to any of the concrete corpora. -/
def tcGhost : Testcase := SimpleTestcase.new 99 "ghost"

/-- A removal-free operation sequence: add `tcA`, then one `get`. -/
def opsNoRemove : List QOp :=
  [QOp.add tcA, QOp.get]

/-- A `QueueCorpus` holding the single testcase "fancyfile", as in the
repository's `test_queuecorpus` test. -/
def queueFancy : QueueCorpus :=
  emptyQueueCorpus.add (SimpleTestcase.new 0 "fancyfile")

/-- A `QueueCorpus` holding testcases "a", "b", "c" added in that order. -/
def queueABC : QueueCorpus :=
  ((emptyQueueCorpus.add tcA).add tcB).add tcC

/-- The operation sequence add `tcA`; add `tcB`; `get`; remove `tcA`. -/
def opsStale : List QOp :=
  [QOp.add tcA, QOp.add tcB, QOp.get, QOp.remove tcA]

/-- A `QueueCorpus` with one entry and a stale cursor `pos = 5` beyond the
end of the collection. -/
def queueStale : QueueCorpus :=
  { random_corpus :=
      { rand := rand0, entries := [tcA], dir_path := "fancy/path" },
    pos := 5, cycles := 0 }

/-! General lemmas about the embedded operations. -/

/-- When no entry of the list carries the target identity, the scan loop of
`RandomCorpus::remove` finds nothing. -/
theorem removeScan_eq_none (entry : Testcase) :
    ∀ (l : List Testcase) (i : Nat),
      (∀ x ∈ l, x.id ≠ entry.id) → removeScan entry l i = none := by
  intro l
  induction l with
  | nil => intro i _; rfl
  | cons x xs ih =>
    intro i h
    have hx : x.id ≠ entry.id := h x (List.mem_cons_self x xs)
    have hxs : ∀ y ∈ xs, y.id ≠ entry.id := fun y hy => h y (List.mem_cons_of_mem x hy)
    simp only [removeScan, if_neg hx]
    exact ih (i + 1) hxs

/-- When the first entry carrying the target identity sits at position `j`
of the list, the scan loop started with accumulator `i` breaks with
`i + j + 1`: one past the match position. -/
theorem removeScan_eq_some (entry : Testcase) :
    ∀ (l : List Testcase) (i j : Nat) (tj : Testcase),
      l.get? j = some tj → tj.id = entry.id →
      (∀ k, k < j → ∀ y, l.get? k = some y → y.id ≠ entry.id) →
      removeScan entry l i = some (i + j + 1) := by
  intro l
  induction l with
  | nil => intro i j tj hj _ _; simp [List.get?] at hj
  | cons x xs ih =>
    intro i j tj hj hid hfirst
    by_cases hx : x.id = entry.id
    · rcases j with _ | j2
      · simp [removeScan, hx]
      · exact absurd hx (hfirst 0 (Nat.succ_pos j2) x rfl)
    · rcases j with _ | j2
      · have hxeq : x = tj := by
          have : some x = some tj := hj
          exact Option.some.inj this
        rw [hxeq] at hx
        exact absurd hid hx
      · have hj2 : xs.get? j2 = some tj := hj
        have hfirst2 : ∀ k, k < j2 → ∀ y, xs.get? k = some y → y.id ≠ entry.id := by
          intro k hk y hy
          exact hfirst (k + 1) (Nat.succ_lt_succ hk) y hy
        have hrec := ih (i + 1) j2 tj hj2 hid hfirst2
        simp only [removeScan, if_neg hx]
        rw [hrec]
        have : i + 1 + j2 + 1 = i + (j2 + 1) + 1 := by omega
        rw [this]

/-- When the corpus is non-empty, `QueueCorpus::get` succeeds: the wrapped
cursor is in bounds, the lookup yields an entry, and the state is updated
with the wrapped cursor and cycle counter. -/
theorem QueueCorpus.get_of_count_ne_zero (q : QueueCorpus) (h : q.count ≠ 0) :
    ∃ t, q.random_corpus.entries.get?
        (if q.count ≤ q.pos + 1 then 0 else q.pos + 1) = some t ∧
      q.get = some (Except.ok (t,
        { q with pos := if q.count ≤ q.pos + 1 then 0 else q.pos + 1,
                 cycles := if q.count ≤ q.pos + 1 then q.cycles + 1 else q.cycles })) := by
  have hlen : q.random_corpus.entries.length = q.count := rfl
  have hlt : (if q.count ≤ q.pos + 1 then 0 else q.pos + 1) <
      q.random_corpus.entries.length := by
    rw [hlen]; split <;> omega
  refine ⟨q.random_corpus.entries.get ⟨_, hlt⟩, List.get?_eq_get hlt, ?_⟩
  unfold QueueCorpus.get
  rw [if_neg h, List.get?_eq_get hlt]

/-- A successful `RandomCorpus::random_entry` leaves the backing vector
unchanged (only the randomness cursor advances). -/
theorem RandomCorpus.random_entry_entries (c : RandomCorpus) (t : Testcase)
    (c2 : RandomCorpus) (h : c.random_entry = some (Except.ok (t, c2))) :
    c2.entries = c.entries := by
  unfold RandomCorpus.random_entry at h
  split at h
  · exact absurd h (by simp)
  · simp only [Option.some.injEq, Except.ok.injEq, Prod.mk.injEq] at h
    obtain ⟨_, h2⟩ := h
    subst h2
    rfl

/-- A successful `QueueCorpus::random_entry` leaves the backing vector and
the cursor state unchanged. -/
theorem QueueCorpus.random_entry_preserves (q : QueueCorpus) (t : Testcase)
    (q2 : QueueCorpus) (h : q.random_entry = some (Except.ok (t, q2))) :
    q2.random_corpus.entries = q.random_corpus.entries ∧
      q2.pos = q.pos ∧ q2.cycles = q.cycles := by
  unfold QueueCorpus.random_entry at h
  split at h
  · exact absurd h (by simp)
  · exact absurd h (by simp)
  · rename_i t2 c2 heq
    simp only [Option.some.injEq, Except.ok.injEq, Prod.mk.injEq] at h
    obtain ⟨_, h2⟩ := h
    subst h2
    exact ⟨RandomCorpus.random_entry_entries q.random_corpus t2 c2 heq, rfl, rfl⟩

/-- The state after a successful `get()` call is the returned state. -/
theorem stepGet_eq (q : QueueCorpus) (t : Testcase) (q2 : QueueCorpus)
    (h : q.get = some (Except.ok (t, q2))) : stepGet q = q2 := by
  unfold stepGet
  rw [h]

/-- One `get()` call changes `cycles` by exactly the wrap indicator. -/
theorem stepGet_cycles_eq (q : QueueCorpus) :
    (stepGet q).cycles = q.cycles + (if wraps q then 1 else 0) := by
  by_cases h : q.count = 0
  · have hget : q.get = some (Except.error Error.Unknown) := by
      unfold QueueCorpus.get; rw [if_pos h]
    have hw : wraps q = false := by simp [wraps, h]
    unfold stepGet
    rw [hget, hw]
    simp
  · obtain ⟨t, _, hget⟩ := QueueCorpus.get_of_count_ne_zero q h
    unfold stepGet
    rw [hget]
    show (if q.count ≤ q.pos + 1 then q.cycles + 1 else q.cycles) =
      q.cycles + (if wraps q then 1 else 0)
    by_cases hw : q.count ≤ q.pos + 1
    · simp [wraps, hw, h]
    · simp [wraps, hw]

/-- One `get()` call never decreases `cycles`. -/
theorem cycles_le_stepGet (q : QueueCorpus) : q.cycles ≤ (stepGet q).cycles := by
  rw [stepGet_cycles_eq]
  exact Nat.le_add_right _ _

/-- Iterated `get()` calls never decrease `cycles`. -/
theorem cycles_le_iterate (k : Nat) :
    ∀ q : QueueCorpus, q.cycles ≤ (stepGet^[k] q).cycles := by
  induction k with
  | zero => intro q; simp
  | succ n ih =>
    intro q
    rw [Function.iterate_succ_apply]
    exact le_trans (cycles_le_stepGet q) (ih (stepGet q))

/-- Every `Corpus` operation other than `remove` preserves the cursor
invariant `pos < count() ∨ (pos = 0 ∧ count() = 0)` of a `QueueCorpus`. -/
theorem qinv_applyOp (q : QueueCorpus) (op : QOp) (hop : op.isRemove = false)
    (h : q.pos < q.count ∨ (q.pos = 0 ∧ q.count = 0)) :
    (applyOp q op).pos < (applyOp q op).count ∨
      ((applyOp q op).pos = 0 ∧ (applyOp q op).count = 0) := by
  cases op with
  | add t =>
    have hpos : (applyOp q (QOp.add t)).pos = q.pos := rfl
    have hcount : (applyOp q (QOp.add t)).count = q.count + 1 := by
      show (q.random_corpus.entries ++ [t]).length =
        q.random_corpus.entries.length + 1
      simp
    rw [hpos, hcount]
    left
    rcases h with h1 | ⟨h1, h2⟩ <;> omega
  | get =>
    show (stepGet q).pos < (stepGet q).count ∨
      ((stepGet q).pos = 0 ∧ (stepGet q).count = 0)
    by_cases hc : q.count = 0
    · have hget : q.get = some (Except.error Error.Unknown) := by
        unfold QueueCorpus.get
        rw [if_pos hc]
      have hstep : stepGet q = q := by
        unfold stepGet
        rw [hget]
      rw [hstep]
      exact h
    · obtain ⟨t, _, hget⟩ := QueueCorpus.get_of_count_ne_zero q hc
      have hstep : stepGet q =
          { q with pos := if q.count ≤ q.pos + 1 then 0 else q.pos + 1,
                   cycles := if q.count ≤ q.pos + 1 then q.cycles + 1 else q.cycles } := by
        unfold stepGet
        rw [hget]
      rw [hstep]
      left
      show (if q.count ≤ q.pos + 1 then 0 else q.pos + 1) < q.count
      split <;> omega
  | random_entry =>
    rcases hre : q.random_entry with _ | ex
    · have happ : applyOp q QOp.random_entry = q := by
        simp [applyOp, hre]
      rw [happ]
      exact h
    · rcases ex with e | ⟨t, q2⟩
      · have happ : applyOp q QOp.random_entry = q := by
          simp [applyOp, hre]
        rw [happ]
        exact h
      · have happ : applyOp q QOp.random_entry = q2 := by
          simp [applyOp, hre]
        obtain ⟨he, hp, _⟩ := QueueCorpus.random_entry_preserves q t q2 hre
        have hcount : q2.count = q.count := by
          show q2.random_corpus.entries.length = q.random_corpus.entries.length
          rw [he]
        rw [happ, hcount, hp]
        exact h
  | remove t =>
    simp [QOp.isRemove] at hop

/-- The cursor invariant is preserved along any removal-free sequence of
`Corpus` operations. -/
theorem qinv_applyOps :
    ∀ (ops : List QOp) (q : QueueCorpus),
      (∀ op ∈ ops, op.isRemove = false) →
      (q.pos < q.count ∨ (q.pos = 0 ∧ q.count = 0)) →
      ((applyOps q ops).pos < (applyOps q ops).count ∨
        ((applyOps q ops).pos = 0 ∧ (applyOps q ops).count = 0)) := by
  intro ops
  induction ops with
  | nil => intro q _ h; exact h
  | cons op ops ih =>
    intro q hops h
    have hop : op.isRemove = false := hops op (List.mem_cons_self op ops)
    have hrest : ∀ o ∈ ops, o.isRemove = false :=
      fun o ho => hops o (List.mem_cons_of_mem op ho)
    exact ih (applyOp q op) hrest (qinv_applyOp q op hop h)

/-! Theorems settling the claims. -/

/-- Claim C1 (divergence evidence): on a corpus with `count() == 0`,
`RandomCorpus::random_entry`, `RandomCorpus::get` and
`QueueCorpus::random_entry` all PANIC (`none`: the `unwrap` of the failed
lookup in an empty vector) instead of returning an error; only
`QueueCorpus::get` returns an error (`Err(Error::Unknown)`).  The claim
that all four fail without panicking is therefore false of the code. -/
theorem c1_empty_corpus_panics :
    emptyRandomCorpus.count = 0 ∧
    emptyRandomCorpus.random_entry = none ∧
    emptyRandomCorpus.get = none ∧
    emptyQueueCorpus.count = 0 ∧
    emptyQueueCorpus.random_entry = none ∧
    emptyQueueCorpus.get = some (Except.error Error.Unknown) :=
  ⟨rfl, rfl, rfl, rfl, rfl, rfl⟩

/-- Claim C2 (divergence evidence): removing the present entry `tcA` from
the corpus `[tcA, tcB]` succeeds and decreases the count by one, but
removes and returns `tcB` — the element AFTER the match — while the
matched entry `tcA` stays in the corpus.  The claim that `remove` returns
the exact entry passed in is therefore false of the code. -/
theorem c2_remove_returns_wrong_entry :
    corpusAB.remove tcA = some (some tcB, { corpusAB with entries := [tcA] }) ∧
    tcB ≠ tcA :=
  ⟨rfl, by decide⟩

/-- Claim C5: on a fresh `QueueCorpus` with "a", "b", "c" added in that
order, the first three `get()` calls return filenames "b", "c", "a" (the
cursor starts at 0 and is advanced before each read). -/
theorem c5_first_pass_order :
    getFilenames 3 queueABC = ["b", "c", "a"] :=
  rfl

/-- Claim C6: on a fresh `QueueCorpus` holding only "fancyfile", the first
two `get()` calls both return filename "fancyfile" and `get_cycles()`
equals 2 afterwards (every call on a single-entry corpus wraps). -/
theorem c6_single_entry_cycles :
    getFilenames 2 queueFancy = ["fancyfile", "fancyfile"] ∧
    cyclesAfter 2 queueFancy = some 2 :=
  ⟨rfl, rfl⟩

/-- Claim C3: whenever the in-order identity scan of `RandomCorpus::remove`
finds its first match at position `j`, the scan finalizes the removal index
as `j + 1`, and (when an element exists there) the element at `j + 1` — the
one immediately after the match — is the one detached, the rest of the
vector (match included) staying put. -/
theorem c3_removal_index_one_past_match (c : RandomCorpus) (entry tj : Testcase)
    (j : Nat) (hj : c.entries.get? j = some tj) (hid : tj.id = entry.id)
    (hfirst : ∀ k, k < j → ∀ y, c.entries.get? k = some y → y.id ≠ entry.id) :
    removeScan entry c.entries 0 = some (j + 1) ∧
    ∀ t2, c.entries.get? (j + 1) = some t2 →
      c.remove entry =
        some (some t2, { c with entries := c.entries.eraseIdx (j + 1) }) := by
  have hscan : removeScan entry c.entries 0 = some (0 + j + 1) :=
    removeScan_eq_some entry c.entries 0 j tj hj hid hfirst
  rw [Nat.zero_add] at hscan
  refine ⟨hscan, ?_⟩
  intro t2 ht2
  simp only [RandomCorpus.remove, hscan, vecRemove, ht2]

/-- Witness for C3 at a concrete input: in the corpus `[tcA, tcB]`, the
match for `tcA` is at position 0, the scan finalizes index 1, and the
entry removed is `tcB`. -/
theorem c3_removal_index_one_past_match_witness :
    removeScan tcA corpusAB.entries 0 = some 1 ∧
    corpusAB.remove tcA =
      some (some tcB, { corpusAB with entries := corpusAB.entries.eraseIdx 1 }) := by
  have h := c3_removal_index_one_past_match corpusAB tcA tcA 0 rfl rfl
    (fun k hk y _ => absurd hk (Nat.not_lt_zero k))
  exact ⟨h.1, h.2 tcB rfl⟩

/-- Claim C4: on any `RandomCorpus` whose entries carry pairwise-distinct
identities (as distinct boxed objects do), removing the entry whose
identity is that of the LAST element panics: the scan finalizes removal
index `count()`, and `Vec::remove(count())` is out of bounds (`none`
models the panic), so no value is returned. -/
theorem c4_remove_last_entry_panics (c : RandomCorpus) (entry tl : Testcase)
    (hdist : c.entries.Pairwise (fun a b => a.id ≠ b.id))
    (hlast : c.entries.get? (c.entries.length - 1) = some tl)
    (hid : tl.id = entry.id) :
    c.remove entry = none := by
  have hlen : c.entries.length - 1 < c.entries.length := by
    rcases Nat.eq_zero_or_pos c.entries.length with h0 | h0
    · have : c.entries = [] := List.length_eq_zero.mp h0
      rw [this] at hlast
      simp at hlast
    · omega
  have hfirst : ∀ k, k < c.entries.length - 1 →
      ∀ y, c.entries.get? k = some y → y.id ≠ entry.id := by
    intro k hk y hy hcontra
    have hklen : k < c.entries.length := by omega
    have hyget : c.entries.get ⟨k, hklen⟩ = y := by
      have hg := List.get?_eq_get hklen
      rw [hg] at hy
      exact Option.some.inj hy
    have htlget : c.entries.get ⟨c.entries.length - 1, hlen⟩ = tl := by
      have hg := List.get?_eq_get hlen
      rw [hg] at hlast
      exact Option.some.inj hlast
    have hpw := List.pairwise_iff_get.mp hdist ⟨k, hklen⟩
      ⟨c.entries.length - 1, hlen⟩ hk
    rw [hyget, htlget] at hpw
    exact hpw (by rw [hcontra, hid])
  have hscan := removeScan_eq_some entry c.entries 0
    (c.entries.length - 1) tl hlast hid hfirst
  have harith : (0 : Nat) + (c.entries.length - 1) + 1 = c.entries.length := by
    omega
  rw [harith] at hscan
  have hnone : c.entries.get? c.entries.length = none :=
    List.get?_eq_none.mpr (Nat.le_refl _)
  simp only [RandomCorpus.remove, hscan, vecRemove, hnone]

/-- Witness for C4 at a concrete input: removing `tcA` from the singleton
corpus `[tcA]` panics. -/
theorem c4_remove_last_entry_panics_witness :
    corpusA.remove tcA = none :=
  c4_remove_last_entry_panics corpusA tcA tcA
    (by simp [corpusA, emptyRandomCorpus, RandomCorpus.add, RandomCorpus.new])
    rfl rfl

/-- Claim C9: removing a testcase whose identity matches no owned entry
returns the absent result (`None`) and leaves the corpus — in particular
its count — unchanged, for both `RandomCorpus` and `QueueCorpus`. -/
theorem c9_remove_absent_entry (c : RandomCorpus) (q : QueueCorpus)
    (entry : Testcase)
    (h1 : ∀ x ∈ c.entries, x.id ≠ entry.id)
    (h2 : ∀ x ∈ q.random_corpus.entries, x.id ≠ entry.id) :
    c.remove entry = some (none, c) ∧ q.remove entry = some (none, q) := by
  have hc : c.remove entry = some (none, c) := by
    unfold RandomCorpus.remove
    rw [removeScan_eq_none entry c.entries 0 h1]
  refine ⟨hc, ?_⟩
  have hq : q.random_corpus.remove entry = some (none, q.random_corpus) := by
    unfold RandomCorpus.remove
    rw [removeScan_eq_none entry q.random_corpus.entries 0 h2]
  unfold QueueCorpus.remove
  rw [hq]

/-- Witness for C9 at a concrete input: removing the never-added `tcGhost`
from `corpusAB` and from `queueABC` returns `None` and changes nothing. -/
theorem c9_remove_absent_entry_witness :
    corpusAB.remove tcGhost = some (none, corpusAB) ∧
    queueABC.remove tcGhost = some (none, queueABC) :=
  c9_remove_absent_entry corpusAB queueABC tcGhost (by decide) (by decide)

/-- Claim C10: on any `QueueCorpus` with at least one entry — whatever the
current cursor, stale values past the end included — `get()` neither
errors nor panics: it returns the entry at the post-advance cursor, which
lands strictly below `count()`. -/
theorem c10_get_succeeds_on_nonempty (q : QueueCorpus) (h : q.count ≠ 0) :
    ∃ t q2, q.get = some (Except.ok (t, q2)) ∧
      q2.count = q.count ∧ q2.get_pos < q2.count ∧
      q2.random_corpus.entries.get? q2.get_pos = some t := by
  obtain ⟨t, ht, hget⟩ := QueueCorpus.get_of_count_ne_zero q h
  refine ⟨t, _, hget, rfl, ?_, ht⟩
  show (if q.count ≤ q.pos + 1 then 0 else q.pos + 1) < q.count
  split <;> omega

/-- Witness for C10 at a concrete input: a single-entry queue whose stale
cursor is 5 (far past the end) still serves `get()` successfully. -/
theorem c10_get_succeeds_on_nonempty_witness :
    ∃ t q2, queueStale.get = some (Except.ok (t, q2)) ∧
      q2.count = queueStale.count ∧ q2.get_pos < q2.count ∧
      q2.random_corpus.entries.get? q2.get_pos = some t :=
  c10_get_succeeds_on_nonempty queueStale (by decide)

/-- Claim C7: across any sequence of `get()` calls (iterating the state of
`get` from any starting state), `get_cycles()` is non-decreasing; each call
increases it by exactly 1 when it wraps — non-empty corpus whose advanced
cursor reaches `count()`, sending the cursor back to position 0 — and
leaves it unchanged on every other call. -/
theorem c7_cycles_monotone_and_wrap_increment (q : QueueCorpus) (m n : Nat)
    (h : m ≤ n) :
    (stepGet^[m] q).get_cycles ≤ (stepGet^[n] q).get_cycles ∧
    (stepGet^[n + 1] q).get_cycles =
      (stepGet^[n] q).get_cycles +
        (if wraps (stepGet^[n] q) then 1 else 0) ∧
    (wraps (stepGet^[n] q) = true → (stepGet^[n + 1] q).get_pos = 0) := by
  refine ⟨?_, ?_, ?_⟩
  · obtain ⟨k, hk⟩ := Nat.exists_eq_add_of_le h
    subst hk
    rw [show m + k = k + m from Nat.add_comm m k, Function.iterate_add_apply]
    exact cycles_le_iterate k (stepGet^[m] q)
  · rw [Function.iterate_succ_apply']
    exact stepGet_cycles_eq (stepGet^[n] q)
  · intro hw
    rw [Function.iterate_succ_apply']
    have hs : (stepGet^[n] q).count ≠ 0 ∧
        (stepGet^[n] q).count ≤ (stepGet^[n] q).pos + 1 := by
      simpa [wraps] using hw
    obtain ⟨t, _, hget⟩ := QueueCorpus.get_of_count_ne_zero (stepGet^[n] q) hs.1
    show (stepGet (stepGet^[n] q)).pos = 0
    rw [stepGet_eq (stepGet^[n] q) t _ hget]
    show (if (stepGet^[n] q).count ≤ (stepGet^[n] q).pos + 1 then 0
      else (stepGet^[n] q).pos + 1) = 0
    rw [if_pos hs.2]

/-- Witness for C7 at a concrete input: the single-entry queue
`queueFancy`, with `m = 0`, `n = 1`. -/
theorem c7_cycles_monotone_and_wrap_increment_witness :
    (stepGet^[0] queueFancy).get_cycles ≤ (stepGet^[1] queueFancy).get_cycles ∧
    (stepGet^[1 + 1] queueFancy).get_cycles =
      (stepGet^[1] queueFancy).get_cycles +
        (if wraps (stepGet^[1] queueFancy) then 1 else 0) ∧
    (wraps (stepGet^[1] queueFancy) = true →
      (stepGet^[1 + 1] queueFancy).get_pos = 0) :=
  c7_cycles_monotone_and_wrap_increment queueFancy 0 1 (by decide)

/-- Claim C8 counterexample: from a fresh `QueueCorpus`, the operation
sequence add `tcA`; add `tcB`; `get()`; `remove(tcA)` reaches a state in
which `count() = 1 > 0` but the cursor `pos = 1` is NOT below `count()` —
removal never reconciles the cursor, so the claimed invariant fails on a
reachable state. -/
theorem c8_cursor_invariant_counterexample :
    0 < (applyOps emptyQueueCorpus opsStale).count ∧
    ¬ (applyOps emptyQueueCorpus opsStale).get_pos <
        (applyOps emptyQueueCorpus opsStale).count := by
  decide

/-- Claim C8 as amended: in every `QueueCorpus` state reachable from a
fresh corpus by a sequence of `add`, `get`, and `random_entry` operations
— any sequence free of `remove` — whenever `count() > 0` the cursor
satisfies `pos < count()`.  (`remove` can strand the cursor at or past
`count()`, as the counterexample shows.) -/
theorem c8_cursor_invariant_without_remove (r : Rand) (d : String)
    (ops : List QOp) (hops : ∀ op ∈ ops, op.isRemove = false)
    (hcount : 0 < (applyOps (QueueCorpus.new r d) ops).count) :
    (applyOps (QueueCorpus.new r d) ops).get_pos <
      (applyOps (QueueCorpus.new r d) ops).count := by
  have h0 : (QueueCorpus.new r d).pos < (QueueCorpus.new r d).count ∨
      ((QueueCorpus.new r d).pos = 0 ∧ (QueueCorpus.new r d).count = 0) :=
    Or.inr ⟨rfl, rfl⟩
  have hinv := qinv_applyOps ops (QueueCorpus.new r d) hops h0
  show (applyOps (QueueCorpus.new r d) ops).pos <
    (applyOps (QueueCorpus.new r d) ops).count
  rcases hinv with h1 | ⟨h1, h2⟩
  · exact h1
  · omega

/-- Witness for the amended C8 at a concrete input: the removal-free
sequence add `tcA`; `get()` from a fresh corpus. -/
theorem c8_cursor_invariant_without_remove_witness :
    (applyOps (QueueCorpus.new rand0 "fancy/path") opsNoRemove).get_pos <
      (applyOps (QueueCorpus.new rand0 "fancy/path") opsNoRemove).count :=
  c8_cursor_invariant_without_remove rand0 "fancy/path" opsNoRemove
    (by decide) (by decide)

end Corpus
